import Mathlib

/-!
Verification of the SignalHash referral payment splitter (signalhash/ton_referral).

The repository contains, under src/sources:
  * referral.deploy.ts — the deployment script and the Jest test suite for the
    compiled Tact contract SignalHash_Referral (the contract source itself is
    generated output and is not part of the repository sources);
  * referral.live.ts — a CLI that builds and sends SetReserve / SignalHashPromote
    wire messages to the deployed contract.

Cells are modelled as big-endian bit lists with reference sub-cells, matching the
builder/loader semantics of the @ton/core library used by both files.  The
settlement engine, its wire decoder and the receipt formatter are modelled from
the spec, since only their tests and callers appear under src.
-/

set_option maxRecDepth 8000

namespace TonReferral

/-! ## Big-endian bit strings -/

/-- Big-endian encoding of a natural number into exactly `w` bits,
as performed by the cell builder's storeUint. -/
def natToBits : Nat → Nat → List Bool
  | 0, _ => []
  | w + 1, n => natToBits w (n / 2) ++ [decide (n % 2 = 1)]

/-- Value of a big-endian bit string. -/
def bitsToNat (bs : List Bool) : Nat :=
  bs.foldl (fun a b => 2 * a + b.toNat) 0

/-! ## Signed two's-complement fields (storeInt / loadInt) -/

/-- Two's-complement encoding of an integer into `w` bits (storeInt). -/
def intToBits (w : Nat) (m : Int) : List Bool :=
  natToBits w (m % ((2 : Int) ^ w)).toNat

/-- Signed reading of a `w`-bit big-endian field (loadInt). -/
def bitsToInt (w : Nat) (bs : List Bool) : Int :=
  let n : Int := bitsToNat bs
  if n < 2 ^ (w - 1) then n else n - 2 ^ w

/-! ## Byte strings on the wire -/

/-- Bytes laid out as consecutive 8-bit groups (storeBuffer / string tails). -/
def bytesToBits : List Nat → List Bool
  | [] => []
  | b :: bs => natToBits 8 b ++ bytesToBits bs

/-- Reading a bit string back as bytes, 8 bits at a time (loadBuffer / loadStringTail). -/
def bitsToBytes (l : List Bool) : List Nat :=
  if l.length < 8 then []
  else bitsToNat (l.take 8) :: bitsToBytes (l.drop 8)
termination_by l.length
decreasing_by simp_all [List.length_drop]; omega

/-- A list of wire bytes: every element fits in one octet. -/
def validBytes (bs : List Nat) : Prop := ∀ b ∈ bs, b < 256

instance (bs : List Nat) : Decidable (validBytes bs) :=
  List.decidableBAll _ bs

/-! ## Cells

A TON cell: up to 1023 data bits plus reference sub-cells.  Only the parts of the
builder API used by the repository are modelled. -/

/-- A ledger cell: a big-endian bit string together with referenced sub-cells. -/
inductive Cell where
  | mk (bits : List Bool) (refs : List Cell)

/-- Data bits of a cell. -/
def Cell.bits : Cell → List Bool
  | .mk b _ => b

/-- Reference sub-cells of a cell. -/
def Cell.refs : Cell → List Cell
  | .mk _ r => r

/-- Chained cell layout produced by the builder's storeStringRefTail for the byte
string of a memo: at most 127 bytes per cell, the remainder continuing in a
single reference sub-cell. -/
def stringTailCell (bs : List Nat) : Cell :=
  if bs.length ≤ 127 then Cell.mk (bytesToBits bs) []
  else Cell.mk (bytesToBits (bs.take 127)) [stringTailCell (bs.drop 127)]
termination_by bs.length
decreasing_by simp [List.length_drop]; omega

/-- Reading a chained string tail back (loadStringTail): local bytes followed by
the continuation stored in the first reference, if any. -/
def readStringTail : Cell → List Nat
  | .mk bits [] => bitsToBytes bits
  | .mk bits (r :: _) => bitsToBytes bits ++ readStringTail r

/-! ## Ledger addresses -/

/-- A standard ledger address: workchain id plus 256-bit account hash. -/
structure Address where
  workchain : Int
  hash : Nat
deriving DecidableEq

/-- An address whose components fit their wire fields. -/
def validAddress (a : Address) : Prop :=
  -128 ≤ a.workchain ∧ a.workchain < 128 ∧ a.hash < 2 ^ 256

instance (a : Address) : Decidable (validAddress a) :=
  inferInstanceAs (Decidable (_ ∧ _ ∧ _))

/-- Wire layout written by the builder's storeAddress for a standard address:
two type bits 10, one anycast bit 0, an 8-bit signed workchain id and the
256-bit hash. -/
def addressBits (a : Address) : List Bool :=
  true :: false :: false :: (intToBits 8 a.workchain ++ natToBits 256 a.hash)

/-- Reading a standard address back from the head of a bit string, returning the
remaining bits. -/
def readAddress (bs : List Bool) : Option (Address × List Bool) :=
  match bs with
  | true :: false :: false :: rest =>
    if 264 ≤ rest.length then
      some (⟨bitsToInt 8 (rest.take 8), bitsToNat ((rest.drop 8).take 256)⟩, rest.drop 264)
    else none
  | _ => none

/-! ## Wire message encoders

The first two builders are translated from src/sources/referral.live.ts, the
third from the test fixture in src/sources/referral.deploy.ts. -/

/-- ASCII byte string of a host string literal. -/
def strBytes (s : String) : List Nat := s.toList.map Char.toNat

/-- The fixed memo used by the test suite (src/sources/referral.deploy.ts). -/
def invoiceId : String := "Invoice:03603999296428015565-7"

/-- buildSetReserve from src/sources/referral.live.ts: a 32-bit tag 0x5032a9ac
followed by the minReserve amount as a signed 257-bit integer. -/
def buildSetReserve (minReserveNano : Int) : Cell :=
  Cell.mk (natToBits 32 0x5032a9ac ++ intToBits 257 minReserveNano) []

/-- buildSignalHashPromote from src/sources/referral.live.ts: a 32-bit tag
0xccce9a8a, the memo as a referenced string tail, the referral address and the
bpsB ratio as a signed 257-bit integer. -/
def buildSignalHashPromote (memo : List Nat) (ref : Address) (bpsB : Int) : Cell :=
  Cell.mk (natToBits 32 0xccce9a8a ++ addressBits ref ++ intToBits 257 bpsB)
    [stringTailCell memo]

/-- GetContractMemo from src/sources/referral.deploy.ts: the test fixture builder
for the memo-bearing payment message, with the tag written as the decimal
literal 3436092042 and the memo fixed to the invoice id. -/
def GetContractMemo (bps : Int) (toB : Address) : Cell :=
  Cell.mk (natToBits 32 3436092042 ++ addressBits toB ++ intToBits 257 bps)
    [stringTailCell (strBytes invoiceId)]

/-- Modelled from the spec: the PlainComment encoding of section 4.1 (32-bit tag
0x00000000 followed by the UTF-8 text tail); the repository sources contain no
plain-comment builder of their own. -/
def encodePlainComment (text : List Nat) : Cell :=
  Cell.mk (natToBits 32 0 ++ bytesToBits text) []

/-! ## Wire message decoder -/

/-- Decoded payload of an incoming message (spec section 3). -/
inductive Payload where
  | setReserve (minReserve : Int)
  | promote (memo : List Nat) (recipientB : Address) (bpsB : Int)
  | plainComment (text : List Nat)
deriving DecidableEq

/-- Decoder failures (spec section 4.1). -/
inductive DecodeError where
  | unknownTag
  | truncated
  | negativeAmount
deriving DecidableEq

/-- Modelled from the spec: field reading for a SetReserve payload after its tag
(section 4.1); rejects a truncated field and a negative decoded amount. -/
def decodeSetReserveBody (rest : List Bool) : Except DecodeError Payload :=
  if rest.length < 257 then .error .truncated
  else
    let m := bitsToInt 257 (rest.take 257)
    if m < 0 then .error .negativeAmount else .ok (.setReserve m)

/-- Modelled from the spec: field reading for the memo-bearing promote payload
after its tag (section 4.1): the memo from the referenced string tail, then the
referral address and the signed 257-bit bpsB field from the data bits. -/
def decodePromoteBody (refs : List Cell) (rest : List Bool) : Except DecodeError Payload :=
  match refs with
  | [] => .error .truncated
  | r :: _ =>
    match readAddress rest with
    | none => .error .truncated
    | some (a, rest2) =>
      if rest2.length < 257 then .error .truncated
      else .ok (.promote (readStringTail r) a (bitsToInt 257 (rest2.take 257)))

/-- Modelled from the spec: the contract-side decoder of section 4.1 (the
compiled Tact contract that performs the decoding is not under src, only its
tests and callers are).  A 32-bit tag dispatches between SetReserve, the
memo-bearing promote message and the tag-zero plain comment; fixed-width fields
that cannot be fully read yield a truncation error, and unknown tags are
rejected before reaching the engine. -/
def decode (c : Cell) : Except DecodeError Payload :=
  if c.bits.length < 32 then .error .truncated
  else
    let tag := bitsToNat (c.bits.take 32)
    let rest := c.bits.drop 32
    if tag = 0x5032a9ac then decodeSetReserveBody rest
    else if tag = 0xccce9a8a then decodePromoteBody c.refs rest
    else if tag = 0 then .ok (.plainComment (bitsToBytes rest))
    else .error .unknownTag

/-! ## Receipt formatter -/

/-- Modelled from the spec: the receipt annotating the transfer to the primary
payee (section 4.3), checked against the expected string of the memo test in
src/sources/referral.deploy.ts. -/
def receiptA (memo : List Nat) : List Nat :=
  memo ++ strBytes ", Promote to #SignalHash"

/-- Modelled from the spec: the receipt annotating the transfer to the referral
payee (section 4.3), with the percentage rendered as the bps ratio divided by
100, truncated; checked against the expected string of the memo test in
src/sources/referral.deploy.ts. -/
def receiptB (memo : List Nat) (bps : Int) : List Nat :=
  memo ++ strBytes (", Referral " ++ toString (bps / 100) ++ "% from #SignalHash")

/-- Expected receipt text for the primary payee, transcribed from the test
oracle at src/sources/referral.deploy.ts line 435. -/
def expectedA : String := invoiceId ++ ", Promote to #SignalHash"

/-- Expected receipt text for the referral payee, transcribed from the test
oracle at src/sources/referral.deploy.ts line 437 with the default 1000 bps. -/
def expectedB : String :=
  invoiceId ++ ", Referral " ++ toString ((1000 : Int) / 100) ++ "% from #SignalHash"

/-! ## Settlement engine -/

/-- Persistent account state (spec section 3). -/
structure AccountState where
  owner : Address
  recipientA : Address
  minReserve : Int
  balance : Int
deriving DecidableEq

/-- An incoming message with its sender and attached value. -/
structure IncomingMessage where
  sender : Address
  value : Int
  payload : Payload
deriving DecidableEq

/-- An outbound transfer effect. -/
structure Transfer where
  dest : Address
  amount : Int
  receipt : List Nat
deriving DecidableEq

/-- Rejection reasons (spec section 7). -/
inductive Rejection where
  | unauthorized
  | invalidSplit
deriving DecidableEq

/-- Implementation-configured parameters the spec leaves open (section 9): the
default split ratio and default referral payee used for plain comments. -/
structure Config where
  defaultBps : Int
  defaultRecipientB : Address

/-- The qualifying-payment threshold: 0.2 currency units in nano units,
matching MIN_PAYMENT in src/sources/referral.deploy.ts. -/
def MIN_PAYMENT : Int := 200000000

/-- Reserve shortfall of the account before the payment is credited. -/
def neededTopUp (st : AccountState) : Int :=
  max 0 (st.minReserve - st.balance)

/-- Modelled from the spec: the portion of a payment eligible for splitting
after covering the reserve shortfall, saturating at zero (sections 4.2 and 8).
The shortfall is measured against the prior balance, following section 8 and
the test oracle at src/sources/referral.deploy.ts line 267; the projectedBalance
variant written in section 4.2 contradicts that oracle. -/
def distributableOf (st : AccountState) (v : Int) : Int :=
  max 0 (v - neededTopUp st)

/-- Modelled from the spec: the split step of the engine (section 4.2): nothing
is forwarded when nothing is distributable, otherwise the referral leg is the
floored bps share, the primary leg the remainder, and the rest of the attached
value is retained. -/
def split (st : AccountState) (v : Int) (memo : List Nat) (rB : Address) (bps : Int) :
    AccountState × List Transfer :=
  let d := distributableOf st v
  if d = 0 then ({ st with balance := st.balance + v }, [])
  else
    let amountB := d * bps / 10000
    let amountA := d - amountB
    ({ st with balance := st.balance + v - amountA - amountB },
      [⟨st.recipientA, amountA, receiptA memo⟩, ⟨rB, amountB, receiptB memo bps⟩])

/-- Modelled from the spec: the settlement engine (section 4.2); the compiled
Tact contract SignalHash_Referral is not under src, only its tests, deployment
script and message builders are.  SetReserve requires the owner and retains the
attached value; payments below MIN_PAYMENT accrue to the balance without
transfers; a promote ratio outside 0..10000 basis points is rejected; otherwise
the distributable remainder after reserve top-up is split between the primary
payee and the referral payee. -/
def process (cfg : Config) (st : AccountState) (msg : IncomingMessage) :
    Except Rejection (AccountState × List Transfer) :=
  match msg.payload with
  | .setReserve r =>
    if msg.sender = st.owner then
      .ok ({ st with minReserve := r, balance := st.balance + msg.value }, [])
    else .error .unauthorized
  | .promote memo rB bps =>
    if msg.value < MIN_PAYMENT then
      .ok ({ st with balance := st.balance + msg.value }, [])
    else if bps < 0 ∨ 10000 < bps then .error .invalidSplit
    else .ok (split st msg.value memo rB bps)
  | .plainComment text =>
    if msg.value < MIN_PAYMENT then
      .ok ({ st with balance := st.balance + msg.value }, [])
    else .ok (split st msg.value text cfg.defaultRecipientB cfg.defaultBps)

/-- Sum of the forwarded amounts of a list of transfers. -/
def sumAmounts (ts : List Transfer) : Int :=
  (ts.map Transfer.amount).sum

/-- The realized primary-leg ratio is within 1.5 percentage points of the ideal
(10000 - bps) / 10000 ratio, stated integrally: the absolute difference
10000 * amountA - (10000 - bps) * (amountA + amountB) is at most
150 * (amountA + amountB). -/
def ratioWithinTolerance (bps amountA amountB : Int) : Prop :=
  -(150 * (amountA + amountB)) ≤ 10000 * amountA - (10000 - bps) * (amountA + amountB)
  ∧ 10000 * amountA - (10000 - bps) * (amountA + amountB) ≤ 150 * (amountA + amountB)

instance (bps amountA amountB : Int) : Decidable (ratioWithinTolerance bps amountA amountB) :=
  inferInstanceAs (Decidable (_ ∧ _))

/-! ## The CLI of src/sources/referral.live.ts -/

/-- getArg from src/sources/referral.live.ts: the element following the first
occurrence of the flag, or none when the flag is absent or is the last token. -/
def getArg (args : List String) (flag : String) : Option String :=
  match args with
  | [] => none
  | a :: rest => if a = flag then rest.head? else getArg rest flag

/-- Host-language disjunction with a string default: the value unless it is
absent or empty (JavaScript falsiness), otherwise the default. -/
def jsOr (s : Option String) (dflt : String) : String :=
  match s with
  | none => dflt
  | some s => if s = "" then dflt else s

/-- Leading decimal digits of a character list as a number, none when the list
does not start with a digit. -/
def parseDigits (cs : List Char) : Option Nat :=
  let ds := cs.takeWhile Char.isDigit
  if ds = [] then none
  else some (ds.foldl (fun a c => 10 * a + (c.toNat - 48)) 0)

/-- Model of the host parseInt with radix 10 as used by the promote branch:
leading whitespace skipped, an optional sign, then leading decimal digits;
none stands for NaN. -/
def jsParseInt (s : String) : Option Int :=
  match s.toList.dropWhile Char.isWhitespace with
  | '-' :: t => (parseDigits t).map (fun n => -(n : Int))
  | '+' :: t => (parseDigits t).map (fun n => (n : Int))
  | t => (parseDigits t).map (fun n => (n : Int))

/-- Strips any leading minus signs, toggling the sign for each, as the amount
parser of the builder library does. -/
def stripMinus : List Char → Bool × List Char
  | '-' :: t => let p := stripMinus t; (!p.1, p.2)
  | cs => (false, cs)

/-- Splits a character list at the dots. -/
def splitDot : List Char → List (List Char)
  | [] => [[]]
  | c :: t =>
    match splitDot t with
    | [] => [[]]
    | h :: r => if c = '.' then [] :: h :: r else (c :: h) :: r

/-- Value of an all-digit character list, none when a non-digit occurs. -/
def digitsVal (cs : List Char) : Option Nat :=
  if cs.all Char.isDigit then some (cs.foldl (fun a c => 10 * a + (c.toNat - 48)) 0)
  else none

/-- Combines the whole and fractional digit groups of a decimal amount into
nano units: empty groups default to zero, at most nine fractional digits. -/
def toNanoParts (neg : Bool) (whole frac : List Char) : Option Int :=
  let whole := if whole = [] then ['0'] else whole
  let frac := if frac = [] then ['0'] else frac
  if 9 < frac.length then none
  else
    match digitsVal whole, digitsVal frac with
    | some w, some f =>
      let r : Int := (w : Int) * 1000000000 + (f : Int) * (10 : Int) ^ (9 - frac.length)
      some (if neg then -r else r)
    | _, _ => none

/-- Model of toNano from the @ton/core dependency (toUnits with precision 9),
through which both CLI branches parse command-line amounts; none stands for a
thrown parse error.  Negative amounts parse successfully. -/
def toNano (s : String) : Option Int :=
  let p := stripMinus s.toList
  if p.2 = ['.'] then none
  else
    match splitDot p.2 with
    | [w] => toNanoParts p.1 w []
    | [w, f] => toNanoParts p.1 w f
    | _ => none

/-- The send request assembled by the promote branch of main in
src/sources/referral.live.ts; the referral address and the pay amount are
parsed downstream when the message is actually built and sent. -/
structure PromoteSend where
  memo : String
  ref : String
  bps : Int
  pay : String
deriving DecidableEq

/-- The usage error thrown by the promote branch. -/
def promoteUsage : String :=
  "Usage: promote --memo ... --ref <addr> --bps <0..10000> [--pay <TON>]"

/-- The promote branch of main in src/sources/referral.live.ts: reads --memo,
--ref, --bps (defaulting to 0 through the host disjunction with the string 0)
and --pay (defaulting to 1); throws the usage error when memo or ref is falsy
or the parsed bps is negative or NaN, and otherwise builds the promote send
request.  No upper bound is placed on bps. -/
def promoteCmd (rest : List String) : Except String PromoteSend :=
  let memo := getArg rest "--memo"
  let ref := getArg rest "--ref"
  let bps := jsParseInt (jsOr (getArg rest "--bps") "0")
  let pay := jsOr (getArg rest "--pay") "1"
  match memo, ref, bps with
  | some m, some r, some b =>
    if m = "" ∨ r = "" ∨ b < 0 then .error promoteUsage
    else .ok ⟨m, r, b, pay⟩
  | _, _, _ => .error promoteUsage

/-- The send request assembled by the set-reserve branch of main in
src/sources/referral.live.ts. -/
structure SetReserveSend where
  body : Cell
  payValue : Int

/-- The set-reserve branch of main in src/sources/referral.live.ts: reads --min
and --pay (the latter defaulting to the string 0.20 only when the flag is
absent), throws when --min is falsy, and otherwise sends buildSetReserve of the
parsed amount with the parsed pay value.  No sign check is performed on the
amounts. -/
def setReserveCmd (rest : List String) : Except String SetReserveSend :=
  let minTON := getArg rest "--min"
  let payTON : Option String :=
    if rest.contains "--pay" then getArg rest "--pay" else some "0.20"
  match minTON with
  | none => .error "Missing --min <TON>"
  | some s =>
    if s = "" then .error "Missing --min <TON>"
    else
      match toNano s with
      | none => .error "Invalid number"
      | some m =>
        match payTON with
        | none => .error "Invalid number"
        | some p =>
          match toNano p with
          | none => .error "Invalid number"
          | some pv => .ok ⟨buildSetReserve m, pv⟩

/-- Whether an Except result is an error. -/
def isErr {ε α : Type} : Except ε α → Bool
  | .error _ => true
  | .ok _ => false

/-! ## Concrete example data -/

/-- Example owner identity. -/
def ownerEx : Address := ⟨0, 1⟩

/-- Example primary payee. -/
def payeeA : Address := ⟨0, 2⟩

/-- Example payer identity. -/
def payerEx : Address := ⟨0, 3⟩

/-- Example referral payee. -/
def payeeB : Address := ⟨0, 4⟩

/-- Example configuration: the 1000 bps default ratio of the test suite. -/
def cfgEx : Config := ⟨1000, payeeB⟩

/-- Example state with the reserve already satisfied: 0.1 currency units of
reserve against a balance of one unit, as in the 10-unit split test. -/
def stEx : AccountState := ⟨ownerEx, payeeA, 100000000, 1000000000⟩

/-- Example state with the reserve raised just below one qualifying payment:
empty balance against a reserve of 0.199999999 units. -/
def stLow : AccountState := ⟨ownerEx, payeeA, 199999999, 0⟩

/-! ## Library lemmas -/

theorem natToBits_length (w n : Nat) : (natToBits w n).length = w := by
  induction w generalizing n with
  | zero => rfl
  | succ w ih => simp [natToBits, ih]

theorem bitsToNat_append (xs ys : List Bool) :
    bitsToNat (xs ++ ys) = ys.foldl (fun a b => 2 * a + b.toNat) (bitsToNat xs) := by
  simp [bitsToNat, List.foldl_append]

theorem bitsToNat_natToBits (w n : Nat) (h : n < 2 ^ w) :
    bitsToNat (natToBits w n) = n := by
  induction w generalizing n with
  | zero =>
    simp [natToBits, bitsToNat]
    omega
  | succ w ih =>
    have hpow : 2 ^ (w + 1) = 2 ^ w * 2 := pow_succ 2 w
    have hdiv : n / 2 < 2 ^ w := by omega
    have := ih (n / 2) hdiv
    simp only [natToBits, bitsToNat_append, List.foldl_cons, List.foldl_nil, this]
    rcases Nat.mod_two_eq_zero_or_one n with h2 | h2 <;> simp [h2] <;> omega

theorem intToBits_length (w : Nat) (m : Int) : (intToBits w m).length = w := by
  simp [intToBits, natToBits_length]

theorem bitsToInt_intToBits (w : Nat) (m : Int)
    (h1 : -(2 ^ w) ≤ m) (h2 : m < 2 ^ w) :
    bitsToInt (w + 1) (intToBits (w + 1) m) = m := by
  have hM : ((2 : Int) ^ (w + 1)) = 2 ^ w * 2 := pow_succ 2 w
  have hpos : (0 : Int) < 2 ^ (w + 1) := by positivity
  have hne : ((2 : Int) ^ (w + 1)) ≠ 0 := ne_of_gt hpos
  have hmodval : m % ((2 : Int) ^ (w + 1)) = if 0 ≤ m then m else m + 2 ^ (w + 1) := by
    split
    · exact Int.emod_eq_of_lt (by assumption) (by omega)
    · have : (m + 2 ^ (w + 1)) % (2 ^ (w + 1)) = m % (2 ^ (w + 1)) := by
        simp [Int.add_mul_emod_self_left]
      rw [← this]
      exact Int.emod_eq_of_lt (by omega) (by omega)
  have hnonneg : 0 ≤ m % ((2 : Int) ^ (w + 1)) := Int.emod_nonneg m hne
  have hlt : m % ((2 : Int) ^ (w + 1)) < 2 ^ (w + 1) := Int.emod_lt_of_pos m hpos
  have hlt' : (m % ((2 : Int) ^ (w + 1))).toNat < 2 ^ (w + 1) := by
    have h2n : ((2 : Int) ^ (w + 1)) = ((2 ^ (w + 1) : Nat) : Int) := by push_cast; ring
    omega
  have hround := bitsToNat_natToBits (w + 1) (m % ((2 : Int) ^ (w + 1))).toNat hlt'
  simp only [bitsToInt, intToBits, hround]
  have hcast : ((((m % ((2 : Int) ^ (w + 1))).toNat : Nat) : Int)) = m % ((2 : Int) ^ (w + 1)) :=
    Int.toNat_of_nonneg hnonneg
  rw [hcast]
  have hw1 : (w + 1) - 1 = w := rfl
  rw [hw1]
  rcases le_or_lt 0 m with hm | hm
  · rw [hmodval, if_pos hm, if_pos h2]
  · rw [hmodval, if_neg (by omega), if_neg (by omega)]
    omega

theorem bytesToBits_length (bs : List Nat) : (bytesToBits bs).length = 8 * bs.length := by
  induction bs with
  | nil => rfl
  | cons b t ih => simp [bytesToBits, natToBits_length, ih]; ring

theorem take_len_append {α : Type} (xs ys : List α) (n : Nat) (h : xs.length = n) :
    (xs ++ ys).take n = xs := by
  subst h; exact List.take_left xs ys

theorem drop_len_append {α : Type} (xs ys : List α) (n : Nat) (h : xs.length = n) :
    (xs ++ ys).drop n = ys := by
  subst h; exact List.drop_left xs ys

theorem bitsToBytes_nil : bitsToBytes [] = [] := by
  rw [bitsToBytes]
  simp

theorem bitsToBytes_bytesToBits (bs : List Nat) (h : validBytes bs) :
    bitsToBytes (bytesToBits bs) = bs := by
  induction bs with
  | nil => exact bitsToBytes_nil
  | cons b t ih =>
    have hb : b < 256 := h b (by simp)
    have ht : validBytes t := fun x hx => h x (by simp [hx])
    have hlen : (natToBits 8 b).length = 8 := natToBits_length 8 b
    have hlenall : (bytesToBits (b :: t)).length = 8 + 8 * t.length := by
      simp [bytesToBits, hlen, bytesToBits_length]
    rw [bitsToBytes]
    rw [if_neg (by omega)]
    have htake : (bytesToBits (b :: t)).take 8 = natToBits 8 b :=
      take_len_append _ _ 8 hlen
    have hdrop : (bytesToBits (b :: t)).drop 8 = bytesToBits t :=
      drop_len_append _ _ 8 hlen
    rw [htake, hdrop, bitsToNat_natToBits 8 b (by omega), ih ht]

theorem readStringTail_stringTailCell (bs : List Nat) (h : validBytes bs) :
    readStringTail (stringTailCell bs) = bs := by
  by_cases hl : bs.length ≤ 127
  · rw [stringTailCell, if_pos hl]
    exact bitsToBytes_bytesToBits bs h
  · rw [stringTailCell, if_neg hl]
    have h1 : validBytes (bs.take 127) := fun x hx => h x (List.mem_of_mem_take hx)
    have h2 : validBytes (bs.drop 127) := fun x hx => h x (List.mem_of_mem_drop hx)
    show bitsToBytes (bytesToBits (bs.take 127)) ++ readStringTail (stringTailCell (bs.drop 127)) = bs
    rw [bitsToBytes_bytesToBits _ h1, readStringTail_stringTailCell (bs.drop 127) h2,
      List.take_append_drop]
termination_by bs.length
decreasing_by simp [List.length_drop]; omega

theorem readAddress_addressBits (a : Address) (tail : List Bool) (h : validAddress a) :
    readAddress (addressBits a ++ tail) = some (a, tail) := by
  obtain ⟨h1, h2, h3⟩ := h
  have hwl : (intToBits 8 a.workchain).length = 8 := intToBits_length 8 _
  have hhl : (natToBits 256 a.hash).length = 256 := natToBits_length 256 _
  have hassoc : addressBits a ++ tail =
      true :: false :: false ::
        (intToBits 8 a.workchain ++ (natToBits 256 a.hash ++ tail)) := by
    simp [addressBits]
  rw [hassoc]
  simp only [readAddress]
  have hrl : (intToBits 8 a.workchain ++ (natToBits 256 a.hash ++ tail)).length =
      264 + tail.length := by simp [hwl, hhl]; omega
  rw [if_pos (by omega)]
  have htake8 : (intToBits 8 a.workchain ++ (natToBits 256 a.hash ++ tail)).take 8 =
      intToBits 8 a.workchain := take_len_append _ _ 8 hwl
  have hdrop8 : (intToBits 8 a.workchain ++ (natToBits 256 a.hash ++ tail)).drop 8 =
      natToBits 256 a.hash ++ tail := drop_len_append _ _ 8 hwl
  have htake256 : (natToBits 256 a.hash ++ tail).take 256 = natToBits 256 a.hash :=
    take_len_append _ _ 256 hhl
  have hdrop264 : (intToBits 8 a.workchain ++ (natToBits 256 a.hash ++ tail)).drop 264 = tail := by
    have : (264 : Nat) = 8 + 256 := rfl
    rw [this, ← List.drop_drop, hdrop8, drop_len_append _ _ 256 hhl]
  have hwc : bitsToInt 8 (intToBits 8 a.workchain) = a.workchain := by
    have := bitsToInt_intToBits 7 a.workchain (by norm_num at h1 ⊢; omega) (by norm_num at h2 ⊢; omega)
    simpa using this
  have hh : bitsToNat (natToBits 256 a.hash) = a.hash := bitsToNat_natToBits 256 a.hash h3
  rw [htake8, hdrop8, htake256, hdrop264, hwc, hh]

theorem decode_tagged (t : Nat) (ht : t < 2 ^ 32) (rest : List Bool) (refs : List Cell) :
    decode (Cell.mk (natToBits 32 t ++ rest) refs) =
      (if t = 0x5032a9ac then decodeSetReserveBody rest
      else if t = 0xccce9a8a then decodePromoteBody refs rest
      else if t = 0 then .ok (.plainComment (bitsToBytes rest))
      else .error .unknownTag) := by
  have htl : (natToBits 32 t).length = 32 := natToBits_length _ _
  simp only [decode, Cell.bits, Cell.refs]
  rw [if_neg (by rw [List.length_append, htl]; omega)]
  rw [take_len_append _ _ 32 htl, drop_len_append _ _ 32 htl, bitsToNat_natToBits 32 t ht]

theorem decode_buildSetReserve (m : Int) (h0 : 0 ≤ m) (h1 : m < 2 ^ 256) :
    decode (buildSetReserve m) = .ok (.setReserve m) := by
  have hil : (intToBits 257 m).length = 257 := intToBits_length _ _
  have htake257 : (intToBits 257 m).take 257 = intToBits 257 m :=
    List.take_of_length_le (by omega)
  have hrt : bitsToInt 257 (intToBits 257 m) = m :=
    bitsToInt_intToBits 256 m (le_trans (by norm_num) h0) h1
  rw [buildSetReserve, decode_tagged 0x5032a9ac (by norm_num) _ _, if_pos rfl,
    decodeSetReserveBody, if_neg (by omega), htake257, hrt, if_neg (not_lt.mpr h0)]

theorem decode_buildSignalHashPromote (memo : List Nat) (ref : Address) (bps : Int)
    (hmemo : validBytes memo) (href : validAddress ref)
    (h0 : -(2 ^ 256) ≤ bps) (h1 : bps < 2 ^ 256) :
    decode (buildSignalHashPromote memo ref bps) = .ok (.promote memo ref bps) := by
  have hil : (intToBits 257 bps).length = 257 := intToBits_length _ _
  have htake257 : (intToBits 257 bps).take 257 = intToBits 257 bps :=
    List.take_of_length_le (by omega)
  have hbits : natToBits 32 0xccce9a8a ++ addressBits ref ++ intToBits 257 bps =
      natToBits 32 0xccce9a8a ++ (addressBits ref ++ intToBits 257 bps) :=
    List.append_assoc _ _ _
  rw [buildSignalHashPromote, hbits, decode_tagged 0xccce9a8a (by norm_num) _ _,
    if_neg (by norm_num), if_pos rfl]
  simp only [decodePromoteBody, readAddress_addressBits ref _ href]
  rw [if_neg (by omega), htake257, bitsToInt_intToBits 256 bps h0 h1,
    readStringTail_stringTailCell memo hmemo]

theorem decode_encodePlainComment (text : List Nat) (h : validBytes text) :
    decode (encodePlainComment text) = .ok (.plainComment text) := by
  rw [encodePlainComment, decode_tagged 0 (by norm_num) _ _, if_neg (by norm_num),
    if_neg (by norm_num), if_pos rfl, bitsToBytes_bytesToBits text h]

theorem amountB_bounds (d bps : Int) (hd : 0 ≤ d) (h0 : 0 ≤ bps) (h1 : bps ≤ 10000) :
    0 ≤ d * bps / 10000 ∧ d * bps / 10000 ≤ d := by
  constructor
  · exact Int.ediv_nonneg (mul_nonneg hd h0) (by norm_num)
  · calc d * bps / 10000 ≤ d * 10000 / 10000 :=
        Int.ediv_le_ediv (by norm_num) (mul_le_mul_of_nonneg_left h1 hd)
    _ = d := Int.mul_ediv_cancel d (by norm_num)

theorem distributableOf_nonneg (st : AccountState) (v : Int) :
    0 ≤ distributableOf st v :=
  le_max_left 0 _

theorem distributableOf_le (st : AccountState) (v : Int) (hv : 0 ≤ v) :
    distributableOf st v ≤ v := by
  simp only [distributableOf, neededTopUp]
  omega

theorem split_pos (st : AccountState) (v : Int) (memo : List Nat) (rB : Address) (bps : Int)
    (hd : distributableOf st v ≠ 0) :
    split st v memo rB bps =
      ({ st with balance := st.balance + v - distributableOf st v },
        [⟨st.recipientA, distributableOf st v - distributableOf st v * bps / 10000, receiptA memo⟩,
         ⟨rB, distributableOf st v * bps / 10000, receiptB memo bps⟩]) := by
  simp only [split]
  rw [if_neg hd]
  have hbal : st.balance + v - (distributableOf st v - distributableOf st v * bps / 10000)
      - distributableOf st v * bps / 10000 = st.balance + v - distributableOf st v := by ring
  rw [hbal]

theorem split_ratio_error (d bps : Int) :
    10000 * (d - d * bps / 10000) - (10000 - bps) * d = d * bps % 10000 := by
  have h := Int.ediv_add_emod (d * bps) 10000
  nlinarith [h]

/-! ## Claims -/

/-- C6: every encoder of the memo-bearing promote message stores the same
leading 32-bit tag 0xCCCE9A8A: the test-fixture builder GetContractMemo (which
writes the tag as the decimal literal 3436092042) and the live builder
buildSignalHashPromote produce payloads with identical tag fields for all
inputs; moreover on the fixed invoice memo the two builders produce identical
cells. -/
theorem promote_tag_agreement :
    (∀ bps toB, (GetContractMemo bps toB).bits.take 32 = natToBits 32 0xccce9a8a)
    ∧ (∀ memo ref bps, (buildSignalHashPromote memo ref bps).bits.take 32 =
        natToBits 32 0xccce9a8a)
    ∧ (∀ bps toB, GetContractMemo bps toB = buildSignalHashPromote (strBytes invoiceId) toB bps) := by
  refine ⟨fun bps toB => ?_, fun memo ref bps => ?_, fun bps toB => rfl⟩
  · show ((natToBits 32 3436092042 ++ addressBits toB ++ intToBits 257 bps)).take 32 = _
    rw [List.append_assoc]
    exact take_len_append _ _ 32 (natToBits_length _ _)
  · show ((natToBits 32 0xccce9a8a ++ addressBits ref ++ intToBits 257 bps)).take 32 = _
    rw [List.append_assoc]
    exact take_len_append _ _ 32 (natToBits_length _ _)

/-- C8: decoding the encoded message returns the original message for every
wire shape and every valid field assignment: a non-negative SetReserve amount,
a promote message with octet-valued memo bytes, a well-formed referral address
and a ratio within 0..10000 basis points, and an arbitrary octet-valued plain
comment text. -/
theorem codec_round_trip :
    (∀ m : Int, 0 ≤ m → m < 2 ^ 256 →
      decode (buildSetReserve m) = .ok (.setReserve m))
    ∧ (∀ memo ref bps, validBytes memo → validAddress ref → 0 ≤ bps → bps ≤ 10000 →
        decode (buildSignalHashPromote memo ref bps) = .ok (.promote memo ref bps))
    ∧ (∀ text, validBytes text → decode (encodePlainComment text) = .ok (.plainComment text)) :=
  ⟨fun m h0 h1 => decode_buildSetReserve m h0 h1,
   fun memo ref bps hm hr h0 h1 =>
     decode_buildSignalHashPromote memo ref bps hm hr
       (le_trans (by norm_num) h0) (lt_of_le_of_lt h1 (by norm_num)),
   fun text ht => decode_encodePlainComment text ht⟩

/-- Witness for C8: the round trip evaluated on one concrete message of each
shape, with a memo long enough to exercise the chained string-tail layout. -/
theorem codec_round_trip_witness :
    decode (buildSetReserve 100000000) = .ok (.setReserve 100000000)
    ∧ decode (buildSignalHashPromote (List.replicate 130 65) payeeB 700) =
        .ok (.promote (List.replicate 130 65) payeeB 700)
    ∧ decode (encodePlainComment [72, 105]) = .ok (.plainComment [72, 105]) :=
  ⟨codec_round_trip.1 100000000 (by decide) (by decide),
   codec_round_trip.2.1 (List.replicate 130 65) payeeB 700
     (by decide) (by decide) (by decide) (by decide),
   codec_round_trip.2.2 [72, 105] (by decide)⟩

/-- C5: a SetReserve message succeeds exactly when the sender is the stored
owner: a non-owner sender is rejected as unauthorized with no state change,
while an owner-sent SetReserve sets minReserve to the payload value, emits no
transfers and retains the attached value in the balance. -/
theorem set_reserve_auth (cfg : Config) (st : AccountState) (sender : Address) (v r : Int) :
    (sender ≠ st.owner →
      process cfg st ⟨sender, v, .setReserve r⟩ = .error .unauthorized)
    ∧ (sender = st.owner →
      process cfg st ⟨sender, v, .setReserve r⟩ =
        .ok ({ st with minReserve := r, balance := st.balance + v }, [])) := by
  constructor
  · intro h
    simp only [process]
    rw [if_neg h]
  · intro h
    simp only [process]
    rw [if_pos h]

/-- Witness for C5: the owner update of the reserve-raise test together with
the rejection of the same message sent by the payer. -/
theorem set_reserve_auth_witness :
    process cfgEx stEx ⟨payerEx, 50000000, .setReserve 400000000⟩ = .error .unauthorized
    ∧ process cfgEx stEx ⟨ownerEx, 50000000, .setReserve 400000000⟩ =
        .ok ({ stEx with minReserve := 400000000, balance := stEx.balance + 50000000 }, []) :=
  ⟨(set_reserve_auth cfgEx stEx payerEx 50000000 400000000).1 (by decide),
   (set_reserve_auth cfgEx stEx ownerEx 50000000 400000000).2 rfl⟩

/-- C1 (amended): for every accepted qualifying promote payment with positive
distributable amount, the engine computes the referral leg as the floored bps
share of the distributable amount and the primary leg as the remainder, emits
exactly one transfer to the primary payee and one to the referral payee with
those amounts, and the realized primary ratio exceeds the ideal
(10000 - bps) / 10000 ratio by an integer-rounding error that is non-negative
and strictly below 1 / distributable, hence within the 1.5 percent tolerance
whenever the distributable amount is at least 67 nano units. -/
theorem split_amounts_and_ratio (cfg : Config) (st : AccountState) (sender : Address)
    (v : Int) (memo : List Nat) (rB : Address) (bps : Int)
    (h0 : 0 ≤ bps) (h1 : bps ≤ 10000) (hv : MIN_PAYMENT ≤ v)
    (hd : 0 < distributableOf st v) :
    process cfg st ⟨sender, v, .promote memo rB bps⟩ =
      .ok ({ st with balance := st.balance + v - distributableOf st v },
        [⟨st.recipientA, distributableOf st v - distributableOf st v * bps / 10000,
          receiptA memo⟩,
         ⟨rB, distributableOf st v * bps / 10000, receiptB memo bps⟩])
    ∧ 0 ≤ 10000 * (distributableOf st v - distributableOf st v * bps / 10000)
        - (10000 - bps) * distributableOf st v
    ∧ 10000 * (distributableOf st v - distributableOf st v * bps / 10000)
        - (10000 - bps) * distributableOf st v < 10000
    ∧ (67 ≤ distributableOf st v →
        ratioWithinTolerance bps
          (distributableOf st v - distributableOf st v * bps / 10000)
          (distributableOf st v * bps / 10000)) := by
  have herr := split_ratio_error (distributableOf st v) bps
  have hm0 : 0 ≤ distributableOf st v * bps % 10000 := Int.emod_nonneg _ (by norm_num)
  have hm1 : distributableOf st v * bps % 10000 < 10000 := Int.emod_lt_of_pos _ (by norm_num)
  refine ⟨?_, by linarith, by linarith, fun h67 => ?_⟩
  · simp only [process]
    rw [if_neg (not_lt.mpr hv), if_neg (by omega), split_pos st v memo rB bps (by omega)]
  · simp only [ratioWithinTolerance]
    have hsum : distributableOf st v - distributableOf st v * bps / 10000
        + distributableOf st v * bps / 10000 = distributableOf st v := by ring
    rw [hsum]
    constructor
    · linarith
    · linarith

/-- Counterexample for C1 as stated: with the reserve raised to 0.199999999
units over an empty balance, a qualifying payment of exactly 0.2 units leaves a
distributable amount of a single nano unit; the engine forwards 1 nano to the
primary payee and 0 to the referral payee, a realized ratio of 100 percent
against the ideal 90 percent, far outside the 1.5 percent tolerance. -/
theorem split_ratio_claim_cex :
    process cfgEx stLow ⟨payerEx, 200000000, .promote [] payeeB 1000⟩ =
      .ok (⟨ownerEx, payeeA, 199999999, 199999999⟩,
        [⟨payeeA, 1, receiptA []⟩, ⟨payeeB, 0, receiptB [] 1000⟩])
    ∧ ¬ ratioWithinTolerance 1000 1 0 := by
  constructor
  · rfl
  · decide

/-- Witness for C1: the 10-unit payment of the 90/10 split test, with the
reserve already satisfied; the whole payment is distributable and the realized
9/1 split is within tolerance. -/
theorem split_amounts_and_ratio_witness :
    process cfgEx stEx ⟨payerEx, 10000000000, .promote [] payeeB 1000⟩ =
      .ok ({ stEx with balance := stEx.balance + 10000000000 - distributableOf stEx 10000000000 },
        [⟨stEx.recipientA, distributableOf stEx 10000000000
            - distributableOf stEx 10000000000 * 1000 / 10000, receiptA []⟩,
         ⟨payeeB, distributableOf stEx 10000000000 * 1000 / 10000, receiptB [] 1000⟩])
    ∧ ratioWithinTolerance 1000
        (distributableOf stEx 10000000000 - distributableOf stEx 10000000000 * 1000 / 10000)
        (distributableOf stEx 10000000000 * 1000 / 10000) := by
  have h := split_amounts_and_ratio cfgEx stEx payerEx 10000000000 [] payeeB 1000
    (by decide) (by decide) (by decide) (by decide)
  exact ⟨h.1, h.2.2.2 (by decide)⟩

theorem split_result_bounds (st : AccountState) (v : Int) (memo : List Nat) (rB : Address)
    (bps : Int) (h0 : 0 ≤ bps) (h1 : bps ≤ 10000) :
    (∀ t ∈ (split st v memo rB bps).2, 0 ≤ t.amount)
    ∧ sumAmounts (split st v memo rB bps).2 ≤ distributableOf st v := by
  have hd0 := distributableOf_nonneg st v
  by_cases hd : distributableOf st v = 0
  · simp only [split]
    rw [if_pos hd]
    exact ⟨by simp, by simp [sumAmounts, hd0]⟩
  · rw [split_pos st v memo rB bps hd]
    have hb := amountB_bounds (distributableOf st v) bps hd0 h0 h1
    constructor
    · intro t ht
      simp only [List.mem_cons, List.not_mem_nil, or_false] at ht
      rcases ht with rfl | rfl
      · show 0 ≤ distributableOf st v - distributableOf st v * bps / 10000
        linarith [hb.2]
      · exact hb.1
    · simp only [sumAmounts, List.map_cons, List.map_nil, List.sum_cons, List.sum_nil]
      show distributableOf st v - distributableOf st v * bps / 10000
          + (distributableOf st v * bps / 10000 + 0) ≤ distributableOf st v
      linarith

/-- C2: for every split performed by the engine, on any state and any incoming
payment with non-negative attached value and a well-formed default ratio, the
forwarded legs are non-negative and their sum is at most the distributable
amount, which is itself at most the attached value: the engine never
over-forwards and never produces a negative leg. -/
theorem engine_split_bounds (cfg : Config) (st : AccountState) (msg : IncomingMessage)
    (st' : AccountState) (ts : List Transfer)
    (hv : 0 ≤ msg.value) (hc0 : 0 ≤ cfg.defaultBps) (hc1 : cfg.defaultBps ≤ 10000)
    (h : process cfg st msg = .ok (st', ts)) :
    (∀ t ∈ ts, 0 ≤ t.amount)
    ∧ sumAmounts ts ≤ distributableOf st msg.value
    ∧ distributableOf st msg.value ≤ msg.value := by
  obtain ⟨sender, v, payload⟩ := msg
  dsimp only at hv ⊢
  have hd0 := distributableOf_nonneg st v
  have hdv := distributableOf_le st v hv
  cases payload with
  | setReserve r =>
    simp only [process] at h
    split_ifs at h
    simp only [Except.ok.injEq, Prod.mk.injEq] at h
    obtain ⟨-, h2⟩ := h
    subst h2
    exact ⟨by simp, by simp [sumAmounts, hd0], hdv⟩
  | promote memo rB bps =>
    simp only [process] at h
    split_ifs at h with hlt hbad
    · simp only [Except.ok.injEq, Prod.mk.injEq] at h
      obtain ⟨-, h2⟩ := h
      subst h2
      exact ⟨by simp, by simp [sumAmounts, hd0], hdv⟩
    · simp only [Except.ok.injEq] at h
      have hbounds := split_result_bounds st v memo rB bps (by omega) (by omega)
      rw [h] at hbounds
      exact ⟨hbounds.1, hbounds.2, hdv⟩
  | plainComment text =>
    simp only [process] at h
    split_ifs at h with hlt
    · simp only [Except.ok.injEq, Prod.mk.injEq] at h
      obtain ⟨-, h2⟩ := h
      subst h2
      exact ⟨by simp, by simp [sumAmounts, hd0], hdv⟩
    · simp only [Except.ok.injEq] at h
      have hbounds := split_result_bounds st v text cfg.defaultRecipientB cfg.defaultBps hc0 hc1
      rw [h] at hbounds
      exact ⟨hbounds.1, hbounds.2, hdv⟩

/-- Witness for C2: the bounds evaluated on the 10-unit split against the
satisfied reserve. -/
theorem engine_split_bounds_witness :
    (∀ t ∈ [(⟨payeeA, 9000000000, receiptA []⟩ : Transfer),
            ⟨payeeB, 1000000000, receiptB [] 1000⟩], 0 ≤ t.amount)
    ∧ sumAmounts [(⟨payeeA, 9000000000, receiptA []⟩ : Transfer),
            ⟨payeeB, 1000000000, receiptB [] 1000⟩] ≤ distributableOf stEx 10000000000
    ∧ distributableOf stEx 10000000000 ≤ 10000000000 :=
  engine_split_bounds cfgEx stEx ⟨payerEx, 10000000000, .promote [] payeeB 1000⟩
    ⟨ownerEx, payeeA, 100000000, 1000000000⟩
    [⟨payeeA, 9000000000, receiptA []⟩, ⟨payeeB, 1000000000, receiptB [] 1000⟩]
    (by decide) (by decide) (by decide) rfl

/-- C3: when the reserve has been raised above the current balance, the next
qualifying payment of value v yields a distributable amount of
v - (minReserve - balance), clamped at zero, the forwarded legs sum to exactly
that amount, and the resulting balance is at most the reserve (exactly the
reserve when anything was forwarded, in this fee-free model). -/
theorem reserve_raise_distributable (cfg : Config) (st : AccountState) (sender : Address)
    (v : Int) (memo : List Nat) (rB : Address) (bps : Int)
    (hraised : st.balance < st.minReserve) (hv : MIN_PAYMENT ≤ v)
    (h0 : 0 ≤ bps) (h1 : bps ≤ 10000) :
    ∃ st' ts, process cfg st ⟨sender, v, .promote memo rB bps⟩ = .ok (st', ts)
      ∧ distributableOf st v = max 0 (v - (st.minReserve - st.balance))
      ∧ sumAmounts ts = distributableOf st v
      ∧ st'.balance ≤ st.minReserve := by
  have hneed : neededTopUp st = st.minReserve - st.balance := by
    simp only [neededTopUp]
    omega
  have hdist : distributableOf st v = max 0 (v - (st.minReserve - st.balance)) := by
    simp only [distributableOf, hneed]
  by_cases hd : distributableOf st v = 0
  · refine ⟨{ st with balance := st.balance + v }, [], ?_, hdist, ?_, ?_⟩
    · simp only [process]
      rw [if_neg (not_lt.mpr hv), if_neg (by omega), split, if_pos hd]
    · simp [sumAmounts, hd]
    · show st.balance + v ≤ st.minReserve
      rw [hdist] at hd
      omega
  · refine ⟨{ st with balance := st.balance + v - distributableOf st v },
      [⟨st.recipientA, distributableOf st v - distributableOf st v * bps / 10000,
        receiptA memo⟩,
       ⟨rB, distributableOf st v * bps / 10000, receiptB memo bps⟩], ?_, hdist, ?_, ?_⟩
    · simp only [process]
      rw [if_neg (not_lt.mpr hv), if_neg (by omega), split_pos st v memo rB bps hd]
    · simp only [sumAmounts, List.map_cons, List.map_nil, List.sum_cons, List.sum_nil]
      show distributableOf st v - distributableOf st v * bps / 10000
          + (distributableOf st v * bps / 10000 + 0) = distributableOf st v
      ring
    · show st.balance + v - distributableOf st v ≤ st.minReserve
      rw [hdist] at hd ⊢
      omega

/-- Witness for C3: the reserve-raise scenario of the test suite: reserve 0.40
units, prior balance 0.05, payment of one unit with the default 1000 bps. -/
theorem reserve_raise_witness :
    ∃ st' ts,
      process cfgEx ⟨ownerEx, payeeA, 400000000, 50000000⟩
          ⟨payerEx, 1000000000, .promote [] payeeB 1000⟩ = .ok (st', ts)
      ∧ distributableOf ⟨ownerEx, payeeA, 400000000, 50000000⟩ 1000000000 =
          max 0 (1000000000 - (400000000 - 50000000))
      ∧ sumAmounts ts = distributableOf ⟨ownerEx, payeeA, 400000000, 50000000⟩ 1000000000
      ∧ st'.balance ≤ 400000000 :=
  reserve_raise_distributable cfgEx ⟨ownerEx, payeeA, 400000000, 50000000⟩ payerEx
    1000000000 [] payeeB 1000 (by decide) (by decide) (by decide) (by decide)

/-- C4: a payment message below the MIN_PAYMENT threshold is accepted with no
outbound transfers and the balance increased by the attached value, regardless
of payload; and a promote message of exactly MIN_PAYMENT with the reserve
already satisfied is processed as a qualifying payment whose whole value is
distributable, producing one transfer to each payee. -/
theorem min_payment_boundary :
    (∀ cfg st (msg : IncomingMessage), (∀ r, msg.payload ≠ .setReserve r) →
      msg.value < MIN_PAYMENT →
      process cfg st msg = .ok ({ st with balance := st.balance + msg.value }, []))
    ∧ (∀ cfg st sender memo rB bps, 0 ≤ bps → bps ≤ 10000 →
        st.minReserve ≤ st.balance →
        process cfg st ⟨sender, MIN_PAYMENT, .promote memo rB bps⟩ =
          .ok ({ st with balance :=
              st.balance + MIN_PAYMENT - distributableOf st MIN_PAYMENT },
            [⟨st.recipientA, distributableOf st MIN_PAYMENT
                - distributableOf st MIN_PAYMENT * bps / 10000, receiptA memo⟩,
             ⟨rB, distributableOf st MIN_PAYMENT * bps / 10000, receiptB memo bps⟩])
          ∧ distributableOf st MIN_PAYMENT = MIN_PAYMENT) := by
  constructor
  · intro cfg st msg hns hlt
    obtain ⟨sender, v, payload⟩ := msg
    dsimp only at hns hlt ⊢
    cases payload with
    | setReserve r => exact absurd rfl (hns r)
    | promote memo rB bps =>
      simp only [process]
      rw [if_pos hlt]
    | plainComment text =>
      simp only [process]
      rw [if_pos hlt]
  · intro cfg st sender memo rB bps h0 h1 hres
    have hdist : distributableOf st MIN_PAYMENT = MIN_PAYMENT := by
      simp only [distributableOf, neededTopUp, MIN_PAYMENT]
      omega
    have hd : distributableOf st MIN_PAYMENT ≠ 0 := by
      rw [hdist]
      simp [MIN_PAYMENT]
    refine ⟨?_, hdist⟩
    simp only [process]
    rw [if_neg (lt_irrefl MIN_PAYMENT), if_neg (by omega),
      split_pos st MIN_PAYMENT memo rB bps hd]

/-- Witness for C4: a 0.1-unit micro-payment accrues without transfers, and an
exactly 0.2-unit payment against the satisfied reserve splits in full. -/
theorem min_payment_boundary_witness :
    process cfgEx stEx ⟨payerEx, 100000000, .promote [] payeeB 1000⟩ =
      .ok ({ stEx with balance := stEx.balance + 100000000 }, [])
    ∧ (process cfgEx stEx ⟨payerEx, MIN_PAYMENT, .promote [] payeeB 1000⟩ =
        .ok ({ stEx with balance :=
            stEx.balance + MIN_PAYMENT - distributableOf stEx MIN_PAYMENT },
          [⟨stEx.recipientA, distributableOf stEx MIN_PAYMENT
              - distributableOf stEx MIN_PAYMENT * 1000 / 10000, receiptA []⟩,
           ⟨payeeB, distributableOf stEx MIN_PAYMENT * 1000 / 10000, receiptB [] 1000⟩])
        ∧ distributableOf stEx MIN_PAYMENT = MIN_PAYMENT) :=
  ⟨min_payment_boundary.1 cfgEx stEx ⟨payerEx, 100000000, .promote [] payeeB 1000⟩
      (fun r h => by simp at h) (by decide),
   min_payment_boundary.2 cfgEx stEx payerEx [] payeeB 1000
      (by decide) (by decide) (by decide)⟩

/-- C7: the receipt attached to the transfer to the primary payee is the memo
followed by the Promote annotation, and the receipt to the referral payee is
the memo followed by the Referral annotation carrying bps divided by 100 with
truncation (1000 to 10, 700 to 7), for every memo and every bps in 0..10000;
the formatter agrees with the expected strings of the memo-forwarding test in
src/sources/referral.deploy.ts, and every promote split emitted by the engine
carries exactly these receipts. -/
theorem receipts_format :
    (∀ (memo : List Nat) (bps : Int), 0 ≤ bps → bps ≤ 10000 →
      receiptA memo = memo ++ strBytes ", Promote to #SignalHash"
      ∧ receiptB memo bps =
          memo ++ strBytes (", Referral " ++ toString (bps / 100) ++ "% from #SignalHash"))
    ∧ ((1000 : Int) / 100 = 10 ∧ (700 : Int) / 100 = 7)
    ∧ (receiptA (strBytes invoiceId) = strBytes expectedA
        ∧ receiptB (strBytes invoiceId) 1000 = strBytes expectedB
        ∧ receiptB (strBytes invoiceId) 700 =
            strBytes (invoiceId ++ ", Referral 7% from #SignalHash"))
    ∧ (∀ cfg st sender v memo rB bps st' tA tB,
        process cfg st ⟨sender, v, .promote memo rB bps⟩ = .ok (st', [tA, tB]) →
        tA.receipt = receiptA memo ∧ tB.receipt = receiptB memo bps) := by
  refine ⟨fun memo bps _ _ => ⟨rfl, rfl⟩, by decide, by decide, ?_⟩
  intro cfg st sender v memo rB bps st' tA tB h
  simp only [process] at h
  split_ifs at h with hlt hbad
  · simp at h
  · by_cases hd : distributableOf st v = 0
    · rw [split, if_pos hd] at h
      simp at h
    · rw [split_pos st v memo rB bps hd] at h
      simp only [Except.ok.injEq, Prod.mk.injEq, List.cons.injEq, and_true] at h
      obtain ⟨-, h2, h3⟩ := h
      exact ⟨by rw [← h2], by rw [← h3]⟩

/-- Witness for C7: the receipt format evaluated at a one-byte memo and the
700 bps ratio of the updated-split test. -/
theorem receipts_format_witness :
    receiptA [77] = [77] ++ strBytes ", Promote to #SignalHash"
    ∧ receiptB [77] 700 =
        [77] ++ strBytes (", Referral " ++ toString ((700 : Int) / 100) ++ "% from #SignalHash") :=
  receipts_format.1 [77] 700 (by decide) (by decide)

/-- C9 (amended): the promote command throws exactly when --memo is missing or
empty, --ref is missing or empty, or the parsed --bps is negative or not a
number (host falsiness treats a present-but-empty flag value like a missing
one); no upper bound is enforced on bps, so any non-negative parsed bps,
including values above 10000, is built and sent; and when --bps is absent the
ratio defaults to 0. -/
theorem promote_cli_validation :
    (∀ rest : List String,
      isErr (promoteCmd rest) = true ↔
        (getArg rest "--memo" = none ∨ getArg rest "--memo" = some ""
          ∨ getArg rest "--ref" = none ∨ getArg rest "--ref" = some ""
          ∨ jsParseInt (jsOr (getArg rest "--bps") "0") = none
          ∨ ∃ b, jsParseInt (jsOr (getArg rest "--bps") "0") = some b ∧ b < 0))
    ∧ (∀ rest m r b, getArg rest "--memo" = some m → m ≠ "" →
        getArg rest "--ref" = some r → r ≠ "" →
        jsParseInt (jsOr (getArg rest "--bps") "0") = some b → 0 ≤ b →
        promoteCmd rest = .ok ⟨m, r, b, jsOr (getArg rest "--pay") "1"⟩)
    ∧ (∀ rest, getArg rest "--bps" = none →
        jsParseInt (jsOr (getArg rest "--bps") "0") = some 0) := by
  refine ⟨fun rest => ?_, fun rest m r b hm hm0 hr hr0 hb hb0 => ?_, fun rest hb => ?_⟩
  · cases hm : getArg rest "--memo" with
    | none => simp [promoteCmd, hm, isErr]
    | some m =>
      cases hr : getArg rest "--ref" with
      | none => simp [promoteCmd, hm, hr, isErr]
      | some r =>
        cases hb : jsParseInt (jsOr (getArg rest "--bps") "0") with
        | none => simp [promoteCmd, hm, hr, hb, isErr]
        | some b =>
          simp only [promoteCmd, hm, hr, hb]
          by_cases hcond : m = "" ∨ r = "" ∨ b < 0
          · rw [if_pos hcond]
            simp only [isErr, true_iff]
            rcases hcond with h1 | h1 | h1
            · exact Or.inr (Or.inl (by rw [h1]))
            · exact Or.inr (Or.inr (Or.inr (Or.inl (by rw [h1]))))
            · exact Or.inr (Or.inr (Or.inr (Or.inr (Or.inr ⟨b, rfl, h1⟩))))
          · rw [if_neg hcond]
            push_neg at hcond
            simp only [isErr, Bool.false_eq_true, false_iff]
            intro hcontra
            rcases hcontra with h1 | h1 | h1 | h1 | h1 | ⟨b', hb', hb'1⟩
            · simp at h1
            · rw [Option.some.injEq] at h1
              exact hcond.1 h1
            · simp at h1
            · rw [Option.some.injEq] at h1
              exact hcond.2.1 h1
            · simp at h1
            · rw [Option.some.injEq] at hb'
              exact absurd (hb' ▸ hb'1) (not_lt.mpr hcond.2.2)
  · simp only [promoteCmd, hm, hr, hb]
    rw [if_neg (by push_neg; exact ⟨hm0, hr0, hb0⟩)]
  · rw [hb]
    decide

/-- Counterexample for C9 as stated: invoking promote with --memo present but
holding the empty string (and a valid --ref) throws the usage error even though
the memo flag is not missing, the ref flag is not missing and the defaulted bps
parses to 0. -/
theorem promote_cli_claim_cex :
    isErr (promoteCmd ["--memo", "", "--ref", "r"]) = true
    ∧ getArg ["--memo", "", "--ref", "r"] "--memo" = some ""
    ∧ getArg ["--memo", "", "--ref", "r"] "--ref" = some "r"
    ∧ jsParseInt (jsOr (getArg ["--memo", "", "--ref", "r"] "--bps") "0") = some 0 := by
  decide

/-- Witness for C9: a bps of 20000, above the documented range, is accepted and
sent with the default pay amount. -/
theorem promote_cli_witness :
    promoteCmd ["--memo", "m", "--ref", "r", "--bps", "20000"] =
      .ok ⟨"m", "r", 20000, "1"⟩ :=
  promote_cli_validation.2.1 ["--memo", "m", "--ref", "r", "--bps", "20000"] "m" "r" 20000
    (by decide) (by decide) (by decide) (by decide) (by decide) (by decide)

/-- C10 (amended): buildSetReserve performs no validation: every integer in the
signed 257-bit range, including negative values, is encoded faithfully into the
minReserve field; and the set-reserve command sends buildSetReserve of whatever
amount --min parses to, checking only that the flag is present with a non-empty
value (host falsiness treats a present-but-empty --min like a missing one) —
non-negativity of the reserve is not enforced at this boundary. -/
theorem set_reserve_no_validation :
    (∀ m : Int, -(2 ^ 256) ≤ m → m < 2 ^ 256 →
      bitsToInt 257 ((buildSetReserve m).bits.drop 32) = m)
    ∧ (∀ rest s m p pv, getArg rest "--min" = some s → s ≠ "" → toNano s = some m →
        (if rest.contains "--pay" then getArg rest "--pay" else some "0.20") = some p →
        toNano p = some pv →
        setReserveCmd rest = .ok ⟨buildSetReserve m, pv⟩) := by
  constructor
  · intro m h0 h1
    show bitsToInt 257 ((natToBits 32 0x5032a9ac ++ intToBits 257 m).drop 32) = m
    rw [drop_len_append _ _ 32 (natToBits_length _ _)]
    exact bitsToInt_intToBits 256 m h0 h1
  · intro rest s m p pv hs hs0 hm hp hpv
    simp only [setReserveCmd, hs, hm, hp, hpv]
    rw [if_neg hs0]

/-- Counterexample for C10 as stated: invoking set-reserve with --min present
but holding the empty string throws the missing-flag error even though the flag
is present and the empty string parses to the amount 0. -/
theorem set_reserve_claim_cex :
    isErr (setReserveCmd ["--min", ""]) = true
    ∧ getArg ["--min", ""] "--min" = some ""
    ∧ toNano "" = some 0 :=
  ⟨rfl, rfl, by decide⟩

/-- Witness for C10: the negative amount -1 is parsed, encoded and sent without
any sign check, and decodes back from the wire as -1000000000 nano units. -/
theorem set_reserve_witness :
    bitsToInt 257 ((buildSetReserve (-1000000000)).bits.drop 32) = -1000000000
    ∧ setReserveCmd ["--min", "-1"] = .ok ⟨buildSetReserve (-1000000000), 200000000⟩ :=
  ⟨set_reserve_no_validation.1 (-1000000000) (by decide) (by decide),
   set_reserve_no_validation.2 ["--min", "-1"] "-1" (-1000000000) "0.20" 200000000
     rfl (by decide) (by decide) rfl (by decide)⟩

end TonReferral
